import Mathlib

/-!
Verification of the currency-rates export service (cbr_dbapi).

This file shallowly embeds the parts of the repository that the checked
claims are about:
  - the storage-key policy of `ScalarsHandler.key` (src/handlers.py),
  - the handler construction (pandas materialization) and the upload /
    presigned-url steps (src/handlers.py),
  - the export orchestrator `get_currency_rates` (src/main.py),
  - the latest-rate resolver `get_latest_rates` (src/main.py),
  - request validation (src/schemas.py) and the disabled-S3 client
    (src/botocore_client.py).

Python dates are embedded as year/month/day triples of naturals, floats of
the `exchange_rate` column as rationals, and the asynchronous effects as
explicit state passing: each operation returns the data it would have sent
to the external service (the storage key, the presigned url, ...), and
fallible Python code returns `Except PyError`.
-/

namespace Cbr

/-- Calendar date as produced by `datetime.date`: year, month, day. -/
structure Date where
  year : Nat
  month : Nat
  day : Nat
deriving DecidableEq

/-- Lexicographic order on dates, the order `datetime.date` and the SQL
`Date` column type use. -/
def Date.leb (a b : Date) : Bool :=
  if a.year = b.year then
    if a.month = b.month then decide (a.day ≤ b.day)
    else decide (a.month < b.month)
  else decide (a.year < b.year)

/-- Strict variant of `Date.leb`. -/
def Date.ltb (a b : Date) : Bool :=
  !(Date.leb b a)

theorem Date.leb_iff (a b : Date) :
    Date.leb a b = true ↔
      (a.year < b.year ∨ (a.year = b.year ∧
        (a.month < b.month ∨ (a.month = b.month ∧ a.day ≤ b.day)))) := by
  unfold Date.leb
  split
  · split
    · simp only [decide_eq_true_iff]
      omega
    · simp only [decide_eq_true_iff]
      omega
  · simp only [decide_eq_true_iff]
    omega

theorem Date.leb_refl (a : Date) : Date.leb a a = true := by
  rw [Date.leb_iff]
  omega

theorem Date.leb_total (a b : Date) :
    Date.leb a b = true ∨ Date.leb b a = true := by
  rw [Date.leb_iff, Date.leb_iff]
  omega

theorem Date.leb_trans {a b c : Date} (h1 : Date.leb a b = true)
    (h2 : Date.leb b c = true) : Date.leb a c = true := by
  rw [Date.leb_iff] at h1 h2 ⊢
  omega

theorem Date.leb_antisymm {a b : Date} (h1 : Date.leb a b = true)
    (h2 : Date.leb b a = true) : a = b := by
  rw [Date.leb_iff] at h1 h2
  cases a
  cases b
  simp only [Date.mk.injEq]
  dsimp at h1 h2
  omega

theorem Date.ltb_iff_not_leb (a b : Date) :
    Date.ltb a b = true ↔ ¬ Date.leb b a = true := by
  unfold Date.ltb
  simp

/-- Zero-pad a natural to two digits, as strftime field Pd does. -/
def pad2 (n : Nat) : String :=
  if n < 10 then "0" ++ toString n else toString n

/-- Zero-pad a natural to four digits, as strftime field PY does. -/
def pad4 (n : Nat) : String :=
  if n < 10 then "000" ++ toString n
  else if n < 100 then "00" ++ toString n
  else if n < 1000 then "0" ++ toString n
  else toString n

/-- Embedding of `date.isoformat()` / `strftime(PY-Pm-Pd)`: the hyphenated
ISO rendering used both by the response serializer in src/schemas.py and by
the latest-rates endpoint in src/main.py. -/
def Date.isoformat (d : Date) : String :=
  pad4 d.year ++ "-" ++ pad2 d.month ++ "-" ++ pad2 d.day

/-- Gregorian leap-year rule, as the `datetime` module implements it. -/
def is_leap (y : Nat) : Bool :=
  (y % 4 == 0 && y % 100 != 0) || y % 400 == 0

/-- Number of days in a month, as `datetime` validates it. -/
def days_in_month (y m : Nat) : Nat :=
  if m = 2 then (if is_leap y then 29 else 28)
  else if m = 4 ∨ m = 6 ∨ m = 9 ∨ m = 11 then 30
  else 31

/-- Numeric value of a decimal digit character. -/
def digit_val (c : Char) : Nat := c.toNat - 48

/-- Decimal reading of a digit list. -/
def digits_to_nat (cs : List Char) : Nat :=
  cs.foldl (fun acc c => acc * 10 + digit_val c) 0

/-- Embedding of `datetime.strptime(value, PYPmPd).date()` from the
`handle_dates` validator in src/schemas.py: an eight-digit compact
year-month-day string parsed into a calendar-valid date, `none` on any
malformed input (the `ValueError` strptime raises). -/
def strptime_compact (s : String) : Option Date :=
  let cs := s.data
  if cs.length = 8 && cs.all Char.isDigit then
    let y := digits_to_nat (cs.take 4)
    let m := digits_to_nat ((cs.drop 4).take 2)
    let d := digits_to_nat (cs.drop 6)
    if 1 ≤ m && m ≤ 12 && 1 ≤ d && d ≤ days_in_month y m then
      some ⟨y, m, d⟩
    else none
  else none

/-- Cell value of a row mapping: Python values that occur in the rate
records and response rows (strings, ints, floats-as-rationals). -/
inductive Value
  | vs (s : String)
  | vi (n : Int)
  | vq (q : ℚ)
deriving DecidableEq

/-- Embedding of the `CurrencyRate` ORM row (src/models.py): one persisted
rate record with the nine declared columns. -/
structure CurrencyRate where
  id : Nat
  digital_code : String
  letter_code : String
  units : Int
  currency_name : String
  exchange_rate : ℚ
  date : Date
  timestamp : Nat
  source : String
deriving DecidableEq

/-- Embedding of `currency_columns = CurrencyRate.__table__.columns.keys()`
(src/models.py): the declared column names in declaration order. -/
def currency_columns : List String :=
  ["id", "digital_code", "letter_code", "units", "currency_name",
   "exchange_rate", "date", "timestamp", "source"]

/-- Embedding of `scalar.__dict__` for a loaded ORM instance
(src/handlers.py line 31): the instance dict carries the SQLAlchemy
bookkeeping entry `_sa_instance_state` alongside the column attributes. -/
def CurrencyRate.as_dict (r : CurrencyRate) : List (String × Value) :=
  [("_sa_instance_state", Value.vs "instance_state"),
   ("id", Value.vi r.id),
   ("digital_code", Value.vs r.digital_code),
   ("letter_code", Value.vs r.letter_code),
   ("units", Value.vi r.units),
   ("currency_name", Value.vs r.currency_name),
   ("exchange_rate", Value.vq r.exchange_rate),
   ("date", Value.vs r.date.isoformat),
   ("timestamp", Value.vi r.timestamp),
   ("source", Value.vs r.source)]

/-- Lexicographic order on character lists, used to embed the text ordering
the database applies to the `letter_code` column in ORDER BY. -/
def chars_leb : List Char → List Char → Bool
  | [], _ => true
  | _ :: _, [] => false
  | c :: cs, d :: ds => if c = d then chars_leb cs ds else decide (c < d)

/-- Lexicographic order on strings (database text collation model). -/
def str_leb (a b : String) : Bool :=
  chars_leb a.data b.data

theorem chars_leb_refl (l : List Char) : chars_leb l l = true := by
  induction l with
  | nil => rfl
  | cons c cs ih => simp [chars_leb, ih]

theorem chars_leb_total (a b : List Char) :
    chars_leb a b = true ∨ chars_leb b a = true := by
  induction a generalizing b with
  | nil => left; rfl
  | cons c cs ih =>
    cases b with
    | nil => right; rfl
    | cons d ds =>
      by_cases h : c = d
      · subst h
        rcases ih ds with h2 | h2
        · left; simp [chars_leb, h2]
        · right; simp [chars_leb, h2]
      · rcases lt_or_gt_of_ne h with h2 | h2
        · left; simp [chars_leb, h, h2]
        · right
          have hne : d ≠ c := fun hdc => h hdc.symm
          simp [chars_leb, hne, h2]

theorem chars_leb_trans {a b c : List Char} (h1 : chars_leb a b = true)
    (h2 : chars_leb b c = true) : chars_leb a c = true := by
  induction a generalizing b c with
  | nil => rfl
  | cons x xs ih =>
    cases b with
    | nil => simp [chars_leb] at h1
    | cons y ys =>
      cases c with
      | nil => simp [chars_leb] at h2
      | cons z zs =>
        by_cases hxy : x = y <;> by_cases hyz : y = z
        · subst hxy; subst hyz
          simp [chars_leb] at h1 h2 ⊢
          exact ih h1 h2
        · subst hxy
          simp [chars_leb, hyz] at h2 ⊢
          simp [hyz, h2]
        · subst hyz
          simp [chars_leb, hxy] at h1 ⊢
          simp [hxy, h1]
        · simp [chars_leb, hxy, hyz] at h1 h2
          have hlt : x < z := lt_trans h1 h2
          have hne : x ≠ z := ne_of_lt hlt
          simp [chars_leb, hne, hlt]

theorem str_leb_total (a b : String) :
    str_leb a b = true ∨ str_leb b a = true :=
  chars_leb_total a.data b.data

theorem str_leb_trans {a b c : String} (h1 : str_leb a b = true)
    (h2 : str_leb b c = true) : str_leb a c = true :=
  chars_leb_trans h1 h2

/-- Sort key of the export query `ORDER BY CurrencyRate.date,
CurrencyRate.letter_code` (src/main.py lines 103-104): lexicographic on
(date ascending, letter code ascending). -/
def rate_key_leb (a b : CurrencyRate) : Bool :=
  if a.date = b.date then str_leb a.letter_code b.letter_code
  else Date.leb a.date b.date

theorem rate_key_leb_total (a b : CurrencyRate) :
    rate_key_leb a b = true ∨ rate_key_leb b a = true := by
  unfold rate_key_leb
  by_cases h : a.date = b.date
  · simp [h]
    exact str_leb_total _ _
  · have h2 : b.date ≠ a.date := fun he => h he.symm
    simp [h, h2]
    exact Date.leb_total _ _

theorem rate_key_leb_trans {a b c : CurrencyRate}
    (h1 : rate_key_leb a b = true) (h2 : rate_key_leb b c = true) :
    rate_key_leb a c = true := by
  unfold rate_key_leb at h1 h2 ⊢
  by_cases hab : a.date = b.date
  · by_cases hbc : b.date = c.date
    · rw [if_pos hab] at h1
      rw [if_pos hbc] at h2
      rw [if_pos (hab.trans hbc)]
      exact str_leb_trans h1 h2
    · rw [if_neg hbc] at h2
      have hac : a.date ≠ c.date := by
        rw [hab]
        exact hbc
      rw [if_neg hac, hab]
      exact h2
  · by_cases hbc : b.date = c.date
    · rw [if_neg hab] at h1
      have hac : a.date ≠ c.date := by
        rw [← hbc]
        exact hab
      rw [if_neg hac, ← hbc]
      exact h1
    · rw [if_neg hab] at h1
      rw [if_neg hbc] at h2
      have hac : Date.leb a.date c.date = true := Date.leb_trans h1 h2
      have hne : a.date ≠ c.date := by
        intro he
        have h3 : Date.leb b.date a.date = true := by
          rw [he]
          exact h2
        exact hab (Date.leb_antisymm h1 h3)
      rw [if_neg hne]
      exact hac

/-- Insert a record into a list sorted by `rate_key_leb`, keeping it
sorted. Together with `sort_rates` this models the total order the
database returns rows in for the ORDER BY clause. -/
def ordered_insert (a : CurrencyRate) : List CurrencyRate → List CurrencyRate
  | [] => [a]
  | x :: xs => if rate_key_leb a x then a :: x :: xs else x :: ordered_insert a xs

/-- Sort a row list by `rate_key_leb` (insertion sort): the embedding of
the ORDER BY ordering of the export query result. -/
def sort_rates : List CurrencyRate → List CurrencyRate
  | [] => []
  | x :: xs => ordered_insert x (sort_rates xs)

theorem mem_ordered_insert {x a : CurrencyRate} {l : List CurrencyRate} :
    x ∈ ordered_insert a l ↔ x = a ∨ x ∈ l := by
  induction l with
  | nil => simp [ordered_insert]
  | cons y ys ih =>
    unfold ordered_insert
    split
    · simp
    · simp only [List.mem_cons, ih]
      tauto

theorem mem_sort_rates {x : CurrencyRate} {l : List CurrencyRate} :
    x ∈ sort_rates l ↔ x ∈ l := by
  induction l with
  | nil => simp [sort_rates]
  | cons y ys ih =>
    unfold sort_rates
    rw [mem_ordered_insert]
    simp [ih]

theorem perm_ordered_insert (a : CurrencyRate) (l : List CurrencyRate) :
    (ordered_insert a l).Perm (a :: l) := by
  induction l with
  | nil => simp [ordered_insert]
  | cons y ys ih =>
    unfold ordered_insert
    split
    · exact List.Perm.refl _
    · exact (List.Perm.cons y ih).trans (List.Perm.swap a y ys)

theorem perm_sort_rates (l : List CurrencyRate) :
    (sort_rates l).Perm l := by
  induction l with
  | nil => exact List.Perm.refl _
  | cons y ys ih =>
    unfold sort_rates
    exact (perm_ordered_insert y (sort_rates ys)).trans (List.Perm.cons y ih)

theorem pairwise_ordered_insert {a : CurrencyRate} {l : List CurrencyRate}
    (h : l.Pairwise (fun x y => rate_key_leb x y = true)) :
    (ordered_insert a l).Pairwise (fun x y => rate_key_leb x y = true) := by
  induction l with
  | nil => simp [ordered_insert]
  | cons y ys ih =>
    unfold ordered_insert
    rcases List.pairwise_cons.mp h with ⟨hy, hys⟩
    split
    · rename_i hle
      refine List.pairwise_cons.mpr ⟨?_, h⟩
      intro z hz
      rcases List.mem_cons.mp hz with hz | hz
      · exact hz ▸ hle
      · exact rate_key_leb_trans hle (hy z hz)
    · rename_i hnle
      have hya : rate_key_leb y a = true := by
        rcases rate_key_leb_total a y with h2 | h2
        · exact absurd h2 hnle
        · exact h2
      refine List.pairwise_cons.mpr ⟨?_, ih hys⟩
      intro z hz
      rcases mem_ordered_insert.mp hz with hz | hz
      · exact hz ▸ hya
      · exact hy z hz

theorem pairwise_sort_rates (l : List CurrencyRate) :
    (sort_rates l).Pairwise (fun x y => rate_key_leb x y = true) := by
  induction l with
  | nil => simp [sort_rates]
  | cons y ys ih =>
    unfold sort_rates
    exact pairwise_ordered_insert ih

/-- Embedding of the export query (src/main.py lines 100-105): filter the
store by the optional inclusive date bounds (a clause is added only when
its bound is present), then order by date ascending, letter code
ascending. -/
def select_rates (store : List CurrencyRate) (sd ed : Option Date) :
    List CurrencyRate :=
  sort_rates (store.filter (fun r =>
    (match sd with
     | none => true
     | some d => Date.leb d r.date) &&
    (match ed with
     | none => true
     | some d => Date.leb r.date d)))

theorem mem_select_rates {store : List CurrencyRate} {sd ed : Option Date}
    {r : CurrencyRate} :
    r ∈ select_rates store sd ed ↔
      r ∈ store ∧ (∀ d, sd = some d → Date.leb d r.date = true) ∧
        (∀ d, ed = some d → Date.leb r.date d = true) := by
  unfold select_rates
  rw [mem_sort_rates, List.mem_filter]
  constructor
  · rintro ⟨hmem, hcond⟩
    rw [Bool.and_eq_true] at hcond
    refine ⟨hmem, ?_, ?_⟩
    · intro d hd
      rw [hd] at hcond
      exact hcond.1
    · intro d hd
      rw [hd] at hcond
      exact hcond.2
  · rintro ⟨hmem, hsd, hed⟩
    refine ⟨hmem, ?_⟩
    rw [Bool.and_eq_true]
    constructor
    · cases hc : sd with
      | none => rfl
      | some d => exact hsd d hc
    · cases hc : ed with
      | none => rfl
      | some d => exact hed d hc

/-- Python exceptions that the embedded code can raise. -/
inductive PyError
  | attributeError
  | keyError
deriving DecidableEq

/-- A pandas DataFrame, reduced to what the handlers use: a column-name
list and positional rows. -/
structure DataFrame where
  columns : List String
  rows : List (List Value)
deriving DecidableEq

/-- Embedding of `pd.DataFrame.from_records(records)` on a list of row
dicts: on an empty list pandas produces an empty frame with NO columns;
otherwise the columns are the dict keys and the rows their values. -/
def DataFrame.from_records (records : List (List (String × Value))) :
    DataFrame :=
  match records with
  | [] => ⟨[], []⟩
  | r :: _ => ⟨r.map Prod.fst, records.map (fun row => row.map Prod.snd)⟩

/-- Value of column `c` in a positionally stored row. -/
def get_col (columns : List String) (row : List Value) (c : String) : Value :=
  match (columns.zip row).find? (fun p => decide (p.1 = c)) with
  | some p => p.2
  | none => Value.vs ""

/-- Embedding of column selection `df[cols]`: pandas raises a KeyError if
any requested column is absent from the frame, otherwise it projects and
reorders the columns. -/
def select_columns (df : DataFrame) (cols : List String) :
    Except PyError DataFrame :=
  if cols.all (fun c => df.columns.contains c) then
    Except.ok ⟨cols, df.rows.map (fun row => cols.map (get_col df.columns row))⟩
  else Except.error PyError.keyError

/-- The four concrete handler variants of src/handlers.py, keyed in
src/schemas.py by their `extension` attribute. -/
inductive OutputFormat
  | csv
  | json
  | parquet
  | xlsx
deriving DecidableEq

/-- The `extension` class attribute of each handler variant. -/
def OutputFormat.extension : OutputFormat → String
  | .csv => "csv"
  | .json => "json"
  | .parquet => "parquet"
  | .xlsx => "xlsx"

/-- The `content_type` class attribute of each handler variant. -/
def OutputFormat.content_type : OutputFormat → String
  | .csv => "text/csv"
  | .json => "application/json"
  | .parquet => "application/vnd.apache.parquet"
  | .xlsx => "application/vnd.openxmlformats-officedocument.spreadsheetml.sheet"

/-- Embedding of `available_output_formats` (src/schemas.py lines 10-14):
the dict built by `inspect.getmembers` over the handler module, mapping
each `extension` to its `...Maker` class; member enumeration is
alphabetical by class name (CSVMaker, JSONMaker, ParquetMaker,
XlsxMaker). -/
def available_output_formats : List (String × OutputFormat) :=
  [("csv", OutputFormat.csv), ("json", OutputFormat.json),
   ("parquet", OutputFormat.parquet), ("xlsx", OutputFormat.xlsx)]

/-- Dict lookup in `available_output_formats`. -/
def lookup_format (s : String) : Option OutputFormat :=
  (available_output_formats.find? (fun p => decide (p.1 = s))).map Prod.snd

/-- Embedding of the key computation in `ScalarsHandler.key`
(src/handlers.py lines 53-56): the fixed backup name or the fresh uuid,
followed by a dot and the class extension. -/
def compute_key (is_backup : Bool) (uuid : String) (ext : String) : String :=
  (if is_backup then "currency_rates_db_backup" else uuid) ++ "." ++ ext

/-- Embedding of a `ScalarsHandler` instance (src/handlers.py): the
materialized frame, the (possibly absent) S3 client, the backup flag, the
variant, the uuid that `uuid4()` returns for this instance, and the
`cached_property` slot of `key`. -/
structure ScalarsHandler where
  df : DataFrame
  client : Option Unit
  is_backup : Bool
  fmt : OutputFormat
  uuid : String
  key_cache : Option String
deriving DecidableEq

/-- Embedding of `ScalarsHandler.__init__` (src/handlers.py lines 22-36):
materialize the scalars into a DataFrame through
`pd.DataFrame.from_records(records)[currency_columns]` and store the
client and the backup flag. The column selection raises a KeyError when
the record list is empty, because the empty frame has no columns. -/
def ScalarsHandler.init (scalars : List CurrencyRate) (client : Option Unit)
    (is_backup : Bool) (fmt : OutputFormat) (uuid : String) :
    Except PyError ScalarsHandler :=
  match select_columns
      (DataFrame.from_records (scalars.map CurrencyRate.as_dict))
      currency_columns with
  | Except.error e => Except.error e
  | Except.ok df => Except.ok ⟨df, client, is_backup, fmt, uuid, none⟩

/-- Embedding of the `key` cached property (src/handlers.py lines 53-56):
on first access compute the name from the backup flag (fixed stable name
for backups, the instance uuid otherwise) and cache it; later accesses
return the cached value. -/
def ScalarsHandler.key (h : ScalarsHandler) : ScalarsHandler × String :=
  match h.key_cache with
  | some k => (h, k)
  | none =>
    let k := compute_key h.is_backup h.uuid h.fmt.extension
    ({ h with key_cache := some k }, k)

/-- Embedding of `ScalarsHandler.upload_contents` (src/handlers.py lines
58-67): `put_object` on the client under `self.key`. Attribute access on
a `None` client raises an AttributeError; on success the returned string
is the storage key the object was uploaded under. -/
def ScalarsHandler.upload_contents (h : ScalarsHandler) :
    Except PyError (ScalarsHandler × String) :=
  match h.client with
  | none => Except.error PyError.attributeError
  | some _ =>
    let p := h.key
    Except.ok (p.1, p.2)

/-- Embedding of `ScalarsHandler.generate_url` (src/handlers.py lines
69-80): presign a GET for `self.key` and shorten it; returns the key used
and the shortened url. The presigner and the shortener are external
capabilities passed as functions. -/
def ScalarsHandler.generate_url (h : ScalarsHandler)
    (presign shorten : String → String) :
    Except PyError (ScalarsHandler × String × String) :=
  match h.client with
  | none => Except.error PyError.attributeError
  | some _ =>
    let p := h.key
    Except.ok (p.1, p.2, shorten (presign p.2))

/-- Embedding of the validated `Request` model (src/schemas.py lines
39-53): optional parsed date bounds, the output format (default parquet)
and the backup flag. -/
structure Request where
  startDate : Option Date
  endDate : Option Date
  outputFormat : OutputFormat
  isBackup : Bool
deriving DecidableEq

/-- Embedding of the `Response` model (src/schemas.py lines 57-59): the
echoed bounds re-rendered as ISO date strings by `handle_dates`, the
echoed format, and the mutually optional url and comment. The `isBackup`
field is excluded from serialization by its pydantic `Field(exclude=True)`
and so never appears here. -/
structure Response where
  startDate : Option String
  endDate : Option String
  outputFormat : OutputFormat
  url : Option String
  comment : Option String
deriving DecidableEq

/-- Construction `Response(**r.model_dump(), ...)` as used in src/main.py:
dates serialized to ISO strings, `isBackup` dropped. -/
def mk_response (r : Request) (url comment : Option String) : Response :=
  ⟨r.startDate.map Date.isoformat, r.endDate.map Date.isoformat,
   r.outputFormat, url, comment⟩

/-- What the endpoint returns: either a JSON `Response` body or the bare
204 `fastapi.Response(status_code=HTTP_204_NO_CONTENT)`. -/
inductive ApiResult
  | jsonBody (resp : Response)
  | noContent
deriving DecidableEq

/-- Observable outcome of one export operation: the HTTP result plus the
side effects performed (whether an encode happened, which key was
uploaded, which key the presigned link was generated for). -/
structure Outcome where
  result : ApiResult
  encoded : Bool
  uploaded_key : Option String
  linked_key : Option String
deriving DecidableEq

/-- Embedding of the `get_currency_rates` endpoint body (src/main.py lines
94-140): run the filtered ordered query; on an empty result respond with
the no-results comment; otherwise build the handler for the requested
format, upload, and either stop with 204 for a backup or presign, shorten
and respond with the short url. `uuid` is the value `uuid4()` yields
inside this operation; `client` is absent when S3 is disabled. -/
def get_currency_rates (r : Request) (store : List CurrencyRate)
    (client : Option Unit) (uuid : String)
    (presign shorten : String → String) : Except PyError Outcome :=
  if (select_rates store r.startDate r.endDate).isEmpty then
    Except.ok ⟨ApiResult.jsonBody (mk_response r none (some "No results")),
      false, none, none⟩
  else
    match ScalarsHandler.init (select_rates store r.startDate r.endDate)
        client r.isBackup r.outputFormat uuid with
    | Except.error e => Except.error e
    | Except.ok h =>
      match h.upload_contents with
      | Except.error e => Except.error e
      | Except.ok (h1, up_key) =>
        if r.isBackup then
          Except.ok ⟨ApiResult.noContent, true, some up_key, none⟩
        else
          match h1.generate_url presign shorten with
          | Except.error e => Except.error e
          | Except.ok (_, link_key, short) =>
            Except.ok ⟨ApiResult.jsonBody (mk_response r (some short) none),
              true, some up_key, some link_key⟩

/-- Pydantic validation failures for the `Request` model. -/
inductive ValidationError
  | badDate (field : String)
  | unknownFormat (value : String)
deriving DecidableEq

/-- Embedding of the `handle_dates` pydantic validator (src/schemas.py
lines 45-53) on one raw query string: absent stays absent, a present
string must parse with `strptime(PYPmPd)`, otherwise validation fails. -/
def parse_date_field (v : Option String) : Except ValidationError (Option Date) :=
  match v with
  | none => Except.ok none
  | some s =>
    match strptime_compact s with
    | none => Except.error (ValidationError.badDate s)
    | some d => Except.ok (some d)

/-- Sequencing of the pydantic field validations of `Request`: both date
bounds through `handle_dates`, then the `Literal`-typed output format
against the keys of `available_output_formats` (default "parquet"). -/
def parse_request (sd ed fmtS : Option String) (isBackup : Bool) :
    Except ValidationError Request :=
  match parse_date_field sd with
  | Except.error e => Except.error e
  | Except.ok d1 =>
    match parse_date_field ed with
    | Except.error e => Except.error e
    | Except.ok d2 =>
      match fmtS with
      | none => Except.ok ⟨d1, d2, OutputFormat.parquet, isBackup⟩
      | some s =>
        match lookup_format s with
        | none => Except.error (ValidationError.unknownFormat s)
        | some f => Except.ok ⟨d1, d2, f, isBackup⟩

/-- The full GET /currency-rates flow: validate the raw request, then (and
only then) run the store query and the export pipeline. A validation
failure is returned before any store access. -/
def currency_rates_endpoint (sd ed fmtS : Option String) (isBackup : Bool)
    (store : List CurrencyRate) (client : Option Unit) (uuid : String)
    (presign shorten : String → String) :
    Except ValidationError (Except PyError Outcome) :=
  match parse_request sd ed fmtS isBackup with
  | Except.error e => Except.error e
  | Except.ok r => Except.ok (get_currency_rates r store client uuid presign shorten)

/-- Fold that keeps the row with the strictly greater date, the earlier
row on ties: the row the DISTINCT ON subquery retains for one code. -/
def max_date_fold : CurrencyRate → List CurrencyRate → CurrencyRate
  | acc, [] => acc
  | acc, r :: rs =>
    max_date_fold (if Date.ltb acc.date r.date then r else acc) rs

/-- The subquery row the database retains for `code`: among the rows with
that letter code, one with the maximum date. This embeds one concrete
execution of `SELECT ... ORDER BY letter_code, date DESC DISTINCT ON
(letter_code)` (src/main.py lines 177-189); SQL leaves the choice among
ties on the maximum date unspecified, the embedding takes the earliest
stored one. -/
def latest_for (store : List CurrencyRate) (code : String) :
    Option CurrencyRate :=
  match store.filter (fun r => decide (r.letter_code = code)) with
  | [] => none
  | r :: rs => some (max_date_fold r rs)

/-- The DISTINCT ON subquery of `get_latest_rates`: one max-date row per
letter code occurring in the store. -/
def latest_subquery (store : List CurrencyRate) : List CurrencyRate :=
  ((store.map (fun r => r.letter_code)).dedup).filterMap (latest_for store)

/-- Embedding of the `get_latest_rates` endpoint query (src/main.py lines
165-231): join the table back to the DISTINCT ON subquery on equality of
letter code, date AND exchange rate, then (when codes were requested)
restrict to the requested letter codes. A table row survives the join
when some subquery row agrees with it on all three columns. -/
def get_latest_rates (store : List CurrencyRate)
    (currency_codes : Option (List String)) : List CurrencyRate :=
  let sub := latest_subquery store
  let joined := store.filter (fun r => sub.any (fun s =>
    decide (s.letter_code = r.letter_code) && decide (s.date = r.date) &&
      decide (s.exchange_rate = r.exchange_rate)))
  match currency_codes with
  | none => joined
  | some cs => joined.filter (fun r => cs.contains r.letter_code)

/-- Embedding of the response row built by `get_latest_rates` (src/main.py
lines 233-246): the literal dict with its seven keys in order, the date
rendered by `isoformat()`. -/
def rate_row (r : CurrencyRate) : List (String × Value) :=
  [("digital_code", Value.vs r.digital_code),
   ("letter_code", Value.vs r.letter_code),
   ("units", Value.vi r.units),
   ("currency_name", Value.vs r.currency_name),
   ("exchange_rate", Value.vq r.exchange_rate),
   ("date", Value.vs r.date.isoformat),
   ("source", Value.vs r.source)]

/-- The full GET /currency-rates/latest response body: one dict per
returned rate. -/
def latest_rates_endpoint (store : List CurrencyRate)
    (currency_codes : Option (List String)) : List (List (String × Value)) :=
  (get_latest_rates store currency_codes).map rate_row

theorem max_date_fold_mem (acc : CurrencyRate) (l : List CurrencyRate) :
    max_date_fold acc l = acc ∨ max_date_fold acc l ∈ l := by
  induction l generalizing acc with
  | nil => left; rfl
  | cons r rs ih =>
    unfold max_date_fold
    split
    · rcases ih r with h | h
      · right; rw [h]; exact List.mem_cons_self r rs
      · right; exact List.mem_cons_of_mem r h
    · rcases ih acc with h | h
      · left; exact h
      · right; exact List.mem_cons_of_mem r h

theorem max_date_fold_max (acc : CurrencyRate) (l : List CurrencyRate) :
    Date.leb acc.date (max_date_fold acc l).date = true ∧
      ∀ x ∈ l, Date.leb x.date (max_date_fold acc l).date = true := by
  induction l generalizing acc with
  | nil =>
    exact ⟨Date.leb_refl _, by simp⟩
  | cons r rs ih =>
    unfold max_date_fold
    split
    · rename_i hlt
      have hle : Date.leb acc.date r.date = true := by
        rcases Date.leb_total acc.date r.date with h | h
        · exact h
        · exact absurd h ((Date.ltb_iff_not_leb _ _).mp hlt)
      rcases ih r with ⟨h1, h2⟩
      refine ⟨Date.leb_trans hle h1, ?_⟩
      intro x hx
      rcases List.mem_cons.mp hx with hx | hx
      · exact hx ▸ h1
      · exact h2 x hx
    · rename_i hnlt
      have hle : Date.leb r.date acc.date = true := by
        by_contra hc
        exact hnlt ((Date.ltb_iff_not_leb acc.date r.date).mpr
          (fun h => hc h))
      rcases ih acc with ⟨h1, h2⟩
      refine ⟨h1, ?_⟩
      intro x hx
      rcases List.mem_cons.mp hx with hx | hx
      · exact hx ▸ Date.leb_trans hle h1
      · exact h2 x hx

theorem latest_for_spec {store : List CurrencyRate} {code : String}
    {a : CurrencyRate} (h : latest_for store code = some a) :
    a ∈ store ∧ a.letter_code = code ∧
      ∀ r ∈ store, r.letter_code = code → Date.leb r.date a.date = true := by
  unfold latest_for at h
  rcases hf : store.filter (fun r => decide (r.letter_code = code)) with _ | ⟨x, xs⟩
  · rw [hf] at h
    exact absurd h (by simp)
  · rw [hf] at h
    have ha : a = max_date_fold x xs := by
      injection h with h2
      exact h2.symm
    have hmem : a ∈ x :: xs := by
      rw [ha]
      rcases max_date_fold_mem x xs with h2 | h2
      · rw [h2]; exact List.mem_cons_self x xs
      · exact List.mem_cons_of_mem x h2
    have hmemf : a ∈ store.filter (fun r => decide (r.letter_code = code)) := by
      rw [hf]
      exact hmem
    rcases List.mem_filter.mp hmemf with ⟨hstore, hcode⟩
    refine ⟨hstore, by simpa using hcode, ?_⟩
    intro r hr hrc
    have hrf : r ∈ x :: xs := by
      rw [← hf]
      exact List.mem_filter.mpr ⟨hr, by simpa using hrc⟩
    rcases max_date_fold_max x xs with ⟨h1, h2⟩
    rcases List.mem_cons.mp hrf with hrx | hrx
    · rw [ha, hrx]
      exact h1
    · rw [ha]
      exact h2 r hrx

theorem latest_for_exists {store : List CurrencyRate} {r : CurrencyRate}
    (hr : r ∈ store) :
    ∃ a, latest_for store r.letter_code = some a := by
  unfold latest_for
  rcases hf : store.filter (fun x => decide (x.letter_code = r.letter_code)) with _ | ⟨x, xs⟩
  · have : r ∈ store.filter (fun x => decide (x.letter_code = r.letter_code)) :=
      List.mem_filter.mpr ⟨hr, by simp⟩
    rw [hf] at this
    exact absurd this (by simp)
  · rw [hf]
    exact ⟨max_date_fold x xs, rfl⟩

theorem mem_latest_subquery {store : List CurrencyRate} {s : CurrencyRate}
    (h : s ∈ latest_subquery store) :
    latest_for store s.letter_code = some s := by
  unfold latest_subquery at h
  rcases List.mem_filterMap.mp h with ⟨c, _, hc2⟩
  have := (latest_for_spec hc2).2.1
  rw [this]
  exact hc2

theorem latest_subquery_covers {store : List CurrencyRate}
    {r : CurrencyRate} (hr : r ∈ store) :
    ∃ s ∈ latest_subquery store, latest_for store r.letter_code = some s := by
  rcases latest_for_exists hr with ⟨a, ha⟩
  refine ⟨a, ?_, ha⟩
  unfold latest_subquery
  apply List.mem_filterMap.mpr
  refine ⟨r.letter_code, ?_, ha⟩
  rw [List.mem_dedup]
  exact List.mem_map.mpr ⟨r, hr, rfl⟩

theorem mem_get_latest_rates {store : List CurrencyRate}
    {codes : Option (List String)} {r : CurrencyRate}
    (h : r ∈ get_latest_rates store codes) :
    r ∈ store ∧ ∃ s ∈ latest_subquery store,
      s.letter_code = r.letter_code ∧ s.date = r.date ∧
        s.exchange_rate = r.exchange_rate := by
  unfold get_latest_rates at h
  have hj : r ∈ store.filter (fun r => (latest_subquery store).any (fun s =>
      decide (s.letter_code = r.letter_code) && decide (s.date = r.date) &&
        decide (s.exchange_rate = r.exchange_rate))) := by
    cases codes with
    | none => exact h
    | some cs => exact (List.mem_filter.mp h).1
  rcases List.mem_filter.mp hj with ⟨hstore, hany⟩
  rcases List.any_eq_true.mp hany with ⟨s, hs, hp⟩
  simp only [Bool.and_eq_true, decide_eq_true_iff] at hp
  exact ⟨hstore, s, hs, hp.1.1, hp.1.2, hp.2⟩

theorem get_latest_rates_max_date {store : List CurrencyRate}
    {codes : Option (List String)} {r : CurrencyRate}
    (h : r ∈ get_latest_rates store codes) :
    ∀ x ∈ store, x.letter_code = r.letter_code →
      Date.leb x.date r.date = true := by
  rcases mem_get_latest_rates h with ⟨_, s, hs, hcode, hdate, _⟩
  intro x hx hxc
  have hspec := latest_for_spec (mem_latest_subquery hs)
  have := hspec.2.2 x hx (by rw [hxc, ← hcode])
  rw [← hdate]
  exact this

theorem latest_subquery_unique_per_code {store : List CurrencyRate}
    {s1 s2 : CurrencyRate} (h1 : s1 ∈ latest_subquery store)
    (h2 : s2 ∈ latest_subquery store)
    (hc : s1.letter_code = s2.letter_code) : s1 = s2 := by
  have e1 := mem_latest_subquery h1
  have e2 := mem_latest_subquery h2
  rw [hc] at e1
  rw [e1] at e2
  injection e2

theorem get_latest_rates_exists {store : List CurrencyRate}
    {cs : List String} {c : String} (hr : ∃ r ∈ store, r.letter_code = c)
    (hc : c ∈ cs) :
    ∃ x ∈ get_latest_rates store (some cs), x.letter_code = c := by
  rcases hr with ⟨r, hrs, hrc⟩
  rcases latest_for_exists hrs with ⟨a, ha⟩
  have ha2 : latest_for store c = some a := hrc ▸ ha
  have spec := latest_for_spec ha2
  have hsub : a ∈ latest_subquery store := by
    unfold latest_subquery
    apply List.mem_filterMap.mpr
    refine ⟨c, ?_, ha2⟩
    rw [List.mem_dedup]
    exact List.mem_map.mpr ⟨r, hrs, hrc⟩
  have hmem : a ∈ (store.filter (fun r => (latest_subquery store).any (fun s =>
      decide (s.letter_code = r.letter_code) && decide (s.date = r.date) &&
        decide (s.exchange_rate = r.exchange_rate)))).filter
          (fun r => cs.contains r.letter_code) := by
    apply List.mem_filter.mpr
    refine ⟨?_, ?_⟩
    · apply List.mem_filter.mpr
      refine ⟨spec.1, ?_⟩
      apply List.any_eq_true.mpr
      exact ⟨a, hsub, by simp⟩
    · rw [spec.2.1]
      exact List.elem_eq_true_of_mem hc
  exact ⟨a, hmem, spec.2.1⟩

theorem get_latest_rates_unique_aux {store : List CurrencyRate}
    {codes : Option (List String)} {u v : CurrencyRate}
    (hu : u ∈ get_latest_rates store codes)
    (hv : v ∈ get_latest_rates store codes)
    (hc : u.letter_code = v.letter_code)
    (huniq : ∀ a ∈ store, ∀ b ∈ store,
      a.letter_code = u.letter_code → b.letter_code = u.letter_code →
      (∀ x ∈ store, x.letter_code = u.letter_code → Date.leb x.date a.date = true) →
      (∀ x ∈ store, x.letter_code = u.letter_code → Date.leb x.date b.date = true) →
      a = b) :
    u = v := by
  have hu2 := mem_get_latest_rates hu
  have hv2 := mem_get_latest_rates hv
  have hmaxu := get_latest_rates_max_date hu
  have hmaxv := get_latest_rates_max_date hv
  exact huniq u hu2.1 v hv2.1 rfl hc.symm hmaxu
    (fun x hx hxc => hmaxv x hx (by rw [hxc, hc]))

theorem get_latest_rates_nodup {store : List CurrencyRate}
    {codes : Option (List String)} (h : store.Nodup) :
    (get_latest_rates store codes).Nodup := by
  unfold get_latest_rates
  cases codes with
  | none => exact List.Nodup.filter _ h
  | some cs => exact List.Nodup.filter _ (List.Nodup.filter _ h)

theorem length_eq_one_of_all_eq {α : Type} {l : List α} (hnd : l.Nodup)
    (hall : ∀ a ∈ l, ∀ b ∈ l, a = b) (hne : ∃ a, a ∈ l) :
    l.length = 1 := by
  rcases hne with ⟨a, ha⟩
  cases l with
  | nil => cases ha
  | cons x xs =>
    cases xs with
    | nil => rfl
    | cons y ys =>
      have hxy : x = y := hall x (List.mem_cons_self x _)
        y (List.mem_cons_of_mem x (List.mem_cons_self y ys))
      rw [List.nodup_cons] at hnd
      apply absurd _ hnd.1
      rw [hxy]
      exact List.mem_cons_self y ys

theorem select_columns_ok_of_cons (x : CurrencyRate)
    (xs : List CurrencyRate) :
    ∃ df, select_columns
      (DataFrame.from_records ((x :: xs).map CurrencyRate.as_dict))
      currency_columns = Except.ok df := by
  unfold select_columns
  have hcond : (currency_columns.all fun c =>
      (DataFrame.from_records ((x :: xs).map CurrencyRate.as_dict)).columns.contains c) = true := by
    simp only [List.map_cons, DataFrame.from_records, CurrencyRate.as_dict]
    decide
  rw [if_pos hcond]
  exact ⟨_, rfl⟩

theorem init_ok_of_cons (x : CurrencyRate) (xs : List CurrencyRate)
    (client : Option Unit) (b : Bool) (fmt : OutputFormat) (uuid : String) :
    ∃ df, ScalarsHandler.init (x :: xs) client b fmt uuid =
      Except.ok ⟨df, client, b, fmt, uuid, none⟩ := by
  rcases select_columns_ok_of_cons x xs with ⟨df, hdf⟩
  refine ⟨df, ?_⟩
  unfold ScalarsHandler.init
  rw [hdf]

/-- Exhaustive behaviour of the embedded `get_currency_rates` endpoint:
an empty query short-circuits; with a disabled client any non-empty
export crashes on the None client; otherwise a backup stops at a 204
after uploading under the computed key, and a non-backup uploads,
presigns and shortens the same key. -/
theorem run_cases (r : Request) (store : List CurrencyRate)
    (client : Option Unit) (uuid : String) (ps sh : String → String) :
    (select_rates store r.startDate r.endDate = [] ∧
      get_currency_rates r store client uuid ps sh =
        Except.ok ⟨ApiResult.jsonBody (mk_response r none (some "No results")),
          false, none, none⟩) ∨
    (select_rates store r.startDate r.endDate ≠ [] ∧ client = none ∧
      get_currency_rates r store client uuid ps sh =
        Except.error PyError.attributeError) ∨
    (select_rates store r.startDate r.endDate ≠ [] ∧ client = some () ∧
      r.isBackup = true ∧
      get_currency_rates r store client uuid ps sh =
        Except.ok ⟨ApiResult.noContent, true,
          some (compute_key r.isBackup uuid r.outputFormat.extension), none⟩) ∨
    (select_rates store r.startDate r.endDate ≠ [] ∧ client = some () ∧
      r.isBackup = false ∧
      get_currency_rates r store client uuid ps sh =
        Except.ok ⟨ApiResult.jsonBody (mk_response r
            (some (sh (ps (compute_key r.isBackup uuid r.outputFormat.extension))))
            none),
          true, some (compute_key r.isBackup uuid r.outputFormat.extension),
          some (compute_key r.isBackup uuid r.outputFormat.extension)⟩) := by
  by_cases hemp : select_rates store r.startDate r.endDate = []
  · left
    refine ⟨hemp, ?_⟩
    unfold get_currency_rates
    rw [hemp]
    rfl
  · right
    rcases hs : select_rates store r.startDate r.endDate with _ | ⟨x, xs⟩
    · exact absurd hs hemp
    cases client with
    | none =>
      left
      refine ⟨List.cons_ne_nil x xs, rfl, ?_⟩
      rcases init_ok_of_cons x xs none r.isBackup r.outputFormat uuid with ⟨df, hdf⟩
      unfold get_currency_rates
      rw [hs, hdf]
      rfl
    | some u =>
      cases u
      rcases init_ok_of_cons x xs (some ()) r.isBackup r.outputFormat uuid with ⟨df, hdf⟩
      cases hb : r.isBackup
      · right; right
        refine ⟨List.cons_ne_nil x xs, rfl, rfl, ?_⟩
        unfold get_currency_rates
        rw [hs, hdf, hb]
        rfl
      · right; left
        refine ⟨List.cons_ne_nil x xs, rfl, rfl, ?_⟩
        unfold get_currency_rates
        rw [hs, hdf, hb]
        rfl

/-- Sample record used by the concrete witnesses: the latest USD rate. -/
def usd1 : CurrencyRate :=
  ⟨1, "840", "USD", 1, "US Dollar", 90, ⟨2024, 1, 10⟩, 0, "cbr.ru"⟩

/-- Sample record: a second row identical to `usd1` in letter code, date
and exchange rate but with a different identifier. -/
def usd2 : CurrencyRate :=
  ⟨2, "840", "USD", 1, "US Dollar", 90, ⟨2024, 1, 10⟩, 1, "cbr.ru"⟩

/-- Sample record: an older USD rate. -/
def usd0 : CurrencyRate :=
  ⟨3, "840", "USD", 1, "US Dollar", 88, ⟨2023, 12, 1⟩, 0, "cbr.ru"⟩

/-- Sample record: a EUR rate. -/
def eur1 : CurrencyRate :=
  ⟨4, "978", "EUR", 1, "Euro", 98, ⟨2024, 1, 5⟩, 0, "cbr.ru"⟩

/-- C1: the storage key of a backup export is the one fixed stable name
(identical for any two backup exports with the same format), while an
ad-hoc export key embeds the freshly generated uuid, so exports with
distinct uuids publish to distinct keys. -/
theorem backup_key_fixed_adhoc_key_fresh (ext u1 u2 : String) :
    compute_key true u1 ext = "currency_rates_db_backup" ++ "." ++ ext ∧
    compute_key true u1 ext = compute_key true u2 ext ∧
    (u1 ≠ u2 → compute_key false u1 ext ≠ compute_key false u2 ext) := by
  refine ⟨rfl, rfl, ?_⟩
  intro hne heq
  apply hne
  have heq2 : u1 ++ "." ++ ext = u2 ++ "." ++ ext := heq
  have hd := congrArg String.data heq2
  simp only [String.data_append, List.append_assoc] at hd
  exact String.ext (List.append_left_injective _ hd)

theorem backup_key_fixed_adhoc_key_fresh_witness :
    ("a1b2" : String) ≠ "c3d4" ∧
      compute_key false "a1b2" "parquet" ≠ compute_key false "c3d4" "parquet" :=
  ⟨by decide,
    (backup_key_fixed_adhoc_key_fresh "parquet" "a1b2" "c3d4").2.2 (by decide)⟩

/-- C2 as stated is false on the code: the store below has USD records,
yet the resolver returns two rows for USD, because two distinct rows
share the letter code, the maximum date and the exchange rate, and both
survive the join back to the DISTINCT ON subquery. -/
theorem latest_rates_duplicate_rows_counterexample :
    (∃ r ∈ [usd1, usd2, usd0], r.letter_code = "USD") ∧
    ((get_latest_rates [usd1, usd2, usd0] (some ["USD"])).filter
      (fun r => decide (r.letter_code = "USD"))).length = 2 := by
  constructor
  · exact ⟨usd1, by decide, by decide⟩
  · decide

/-- C2 amended: every row the resolver returns for a code carries the
maximum date among that code's records, and the resolver returns exactly
one row per requested code present in the store whenever at most one
record of that code attains the maximum date. -/
theorem latest_rates_max_date_and_unique
    (store : List CurrencyRate) (cs : List String) (c : String) :
    (∀ r ∈ get_latest_rates store (some cs), r.letter_code = c →
      ∀ x ∈ store, x.letter_code = c → Date.leb x.date r.date = true) ∧
    (store.Nodup → c ∈ cs → (∃ r ∈ store, r.letter_code = c) →
      (∀ a ∈ store, ∀ b ∈ store, a.letter_code = c → b.letter_code = c →
        (∀ x ∈ store, x.letter_code = c → Date.leb x.date a.date = true) →
        (∀ x ∈ store, x.letter_code = c → Date.leb x.date b.date = true) →
        a = b) →
      ((get_latest_rates store (some cs)).filter
        (fun r => decide (r.letter_code = c))).length = 1) := by
  constructor
  · intro r hr hrc x hx hxc
    exact get_latest_rates_max_date hr x hx (by rw [hxc, hrc])
  · intro hnd hc hex huniq
    apply length_eq_one_of_all_eq
    · exact List.Nodup.filter _ (get_latest_rates_nodup hnd)
    · intro a ha b hb
      rcases List.mem_filter.mp ha with ⟨ha1, ha2⟩
      rcases List.mem_filter.mp hb with ⟨hb1, hb2⟩
      have hac : a.letter_code = c := by simpa using ha2
      have hbc : b.letter_code = c := by simpa using hb2
      apply get_latest_rates_unique_aux ha1 hb1 (hac.trans hbc.symm)
      intro p hp q hq hpc hqc hpm hqm
      exact huniq p hp q hq (hpc.trans hac) (hqc.trans hac)
        (fun x hx hxc => hpm x hx (by rw [hxc, ← hac]))
        (fun x hx hxc => hqm x hx (by rw [hxc, ← hac]))
    · rcases get_latest_rates_exists hex hc with ⟨x, hx, hxc⟩
      exact ⟨x, List.mem_filter.mpr ⟨hx, by simp [hxc]⟩⟩

theorem latest_rates_max_date_and_unique_witness :
    ((get_latest_rates [usd1, eur1, usd0] (some ["USD"])).filter
      (fun r => decide (r.letter_code = "USD"))).length = 1 :=
  (latest_rates_max_date_and_unique [usd1, eur1, usd0] ["USD"] "USD").2
    (by decide) (by decide) ⟨usd1, by decide, by decide⟩ (by decide)

/-- C3: with the storage capability configured absent the export is NOT a
graceful no-op: any export over a non-empty result set (ad-hoc or backup)
crashes with an AttributeError when `upload_contents` dereferences the
None client, and only the empty-result path completes with a no-link
response. -/
theorem disabled_client_nonempty_export_crashes :
    get_currency_rates ⟨none, none, OutputFormat.parquet, false⟩ [usd1] none
      "u0" id id = Except.error PyError.attributeError ∧
    get_currency_rates ⟨none, none, OutputFormat.parquet, true⟩ [usd1] none
      "u0" id id = Except.error PyError.attributeError ∧
    get_currency_rates ⟨none, none, OutputFormat.parquet, false⟩ [] none
      "u0" id id =
      Except.ok ⟨ApiResult.jsonBody ⟨none, none, OutputFormat.parquet, none,
        some "No results"⟩, false, none, none⟩ := by
  refine ⟨?_, ?_, ?_⟩ <;> rfl

/-- C4 as stated is false on the code: constructing a handler over an
empty record sequence already fails, because
`pd.DataFrame.from_records([])` has no columns and the
`[currency_columns]` selection raises a KeyError. -/
theorem empty_buffer_encode_counterexample :
    ScalarsHandler.init [] (some ()) false OutputFormat.csv "u0" =
      Except.error PyError.keyError := by
  rfl

/-- C4 amended: handler construction on an empty record sequence fails
with a KeyError for every variant (so an empty TabularBuffer is never
encoded), and no pipeline run ever reaches the encode step on an empty
result set, because the empty query short-circuits first. -/
theorem empty_encode_never_attempted :
    (∀ (client : Option Unit) (b : Bool) (fmt : OutputFormat) (uuid : String),
      ScalarsHandler.init [] client b fmt uuid = Except.error PyError.keyError) ∧
    (∀ r store client uuid ps sh o,
      get_currency_rates r store client uuid ps sh = Except.ok o →
      o.encoded = true →
      select_rates store r.startDate r.endDate ≠ []) := by
  constructor
  · intro client b fmt uuid
    rfl
  · intro r store client uuid ps sh o h henc
    rcases run_cases r store client uuid ps sh with
      ⟨he, hrun⟩ | ⟨hne, _, hrun⟩ | ⟨hne, _, _, hrun⟩ | ⟨hne, _, _, hrun⟩
    · rw [hrun] at h
      obtain rfl := Except.ok.inj h
      simp at henc
    · rw [hrun] at h
      exact Except.noConfusion h
    · exact hne
    · exact hne

theorem empty_encode_never_attempted_witness :
    select_rates [usd1] none none ≠ [] :=
  empty_encode_never_attempted.2 ⟨none, none, OutputFormat.csv, false⟩ [usd1]
    (some ()) "u0" id id
    ⟨ApiResult.jsonBody ⟨none, none, OutputFormat.csv, some "u0.csv", none⟩,
      true, some "u0.csv", some "u0.csv"⟩ (by rfl) rfl

/-- C5: a backup request never yields a download link nor a shortened url
(the presign/shorten step is never reached), and over a non-empty result
it stops right after the upload with the 204 no-content response. -/
theorem backup_response_no_link :
    ∀ (r : Request) (store : List CurrencyRate) (client : Option Unit)
      (uuid : String) (ps sh : String → String) (o : Outcome),
      r.isBackup = true →
      get_currency_rates r store client uuid ps sh = Except.ok o →
      o.linked_key = none ∧
      (∀ resp, o.result = ApiResult.jsonBody resp → resp.url = none) ∧
      (select_rates store r.startDate r.endDate ≠ [] →
        o.result = ApiResult.noContent ∧ o.uploaded_key ≠ none) := by
  intro r store client uuid ps sh o hb h
  rcases run_cases r store client uuid ps sh with
    ⟨he, hrun⟩ | ⟨hne, _, hrun⟩ | ⟨hne, _, _, hrun⟩ | ⟨hne, _, hbf, hrun⟩
  · rw [hrun] at h
    obtain rfl := Except.ok.inj h
    refine ⟨rfl, ?_, ?_⟩
    · intro resp hresp
      injection hresp with h2
      rw [← h2]
      rfl
    · intro hne2
      exact absurd he hne2
  · rw [hrun] at h
    exact Except.noConfusion h
  · rw [hrun] at h
    obtain rfl := Except.ok.inj h
    refine ⟨rfl, ?_, ?_⟩
    · intro resp hresp
      exact ApiResult.noConfusion hresp
    · intro _
      exact ⟨rfl, by simp⟩
  · rw [hb] at hbf
    exact Bool.noConfusion hbf

theorem backup_response_no_link_witness :
    (Outcome.mk ApiResult.noContent true
      (some "currency_rates_db_backup.parquet") none).linked_key = none :=
  (backup_response_no_link ⟨none, none, OutputFormat.parquet, true⟩ [usd1]
    (some ()) "u0" id id
    ⟨ApiResult.noContent, true, some "currency_rates_db_backup.parquet", none⟩
    rfl (by rfl)).1

/-- C6: a non-backup request over an empty result set short-circuits:
nothing is encoded, uploaded or linked, and the response carries the
non-null no-results comment with a null link; moreover no JSON response
ever has both its url and its comment populated. -/
theorem empty_result_short_circuit :
    ∀ (r : Request) (store : List CurrencyRate) (client : Option Unit)
      (uuid : String) (ps sh : String → String) (o : Outcome),
      get_currency_rates r store client uuid ps sh = Except.ok o →
      (r.isBackup = false → select_rates store r.startDate r.endDate = [] →
        o.encoded = false ∧ o.uploaded_key = none ∧ o.linked_key = none ∧
        ∃ resp, o.result = ApiResult.jsonBody resp ∧
          resp.comment = some "No results" ∧ resp.url = none) ∧
      (∀ resp, o.result = ApiResult.jsonBody resp →
        ¬(resp.url ≠ none ∧ resp.comment ≠ none)) := by
  intro r store client uuid ps sh o h
  rcases run_cases r store client uuid ps sh with
    ⟨he, hrun⟩ | ⟨hne, _, hrun⟩ | ⟨hne, _, _, hrun⟩ | ⟨hne, _, _, hrun⟩
  · rw [hrun] at h
    obtain rfl := Except.ok.inj h
    constructor
    · intro _ _
      exact ⟨rfl, rfl, rfl, mk_response r none (some "No results"), rfl, rfl, rfl⟩
    · intro resp hresp
      injection hresp with h2
      rintro ⟨hu, _⟩
      apply hu
      rw [← h2]
      rfl
  · rw [hrun] at h
    exact Except.noConfusion h
  · rw [hrun] at h
    obtain rfl := Except.ok.inj h
    constructor
    · intro _ hemp
      exact absurd hemp hne
    · intro resp hresp
      exact ApiResult.noConfusion hresp
  · rw [hrun] at h
    obtain rfl := Except.ok.inj h
    constructor
    · intro _ hemp
      exact absurd hemp hne
    · intro resp hresp
      injection hresp with h2
      rintro ⟨_, hcm⟩
      apply hcm
      rw [← h2]
      rfl

theorem empty_result_short_circuit_witness :
    ∃ resp,
      (Outcome.mk (ApiResult.jsonBody (Response.mk none none OutputFormat.csv
        none (some "No results"))) false none none).result =
          ApiResult.jsonBody resp ∧
        resp.comment = some "No results" ∧ resp.url = none :=
  ((empty_result_short_circuit ⟨none, none, OutputFormat.csv, false⟩ []
    (some ()) "u0" id id
    ⟨ApiResult.jsonBody ⟨none, none, OutputFormat.csv, none, some "No results"⟩,
      false, none, none⟩ (by rfl)).1 rfl rfl).2.2.2

/-- C7: with both compact-form bounds parsed, exactly the stored records
whose effective date lies in the closed interval are returned, ordered by
date ascending then letter code ascending; an absent bound imposes no
constraint on that side. -/
theorem date_range_filter :
    ∀ (store : List CurrencyRate) (s1 s2 : String) (d1 d2 : Date),
      strptime_compact s1 = some d1 → strptime_compact s2 = some d2 →
      (∀ rec, rec ∈ select_rates store (some d1) (some d2) ↔
        rec ∈ store ∧ Date.leb d1 rec.date = true ∧
          Date.leb rec.date d2 = true) ∧
      (∀ sd ed,
        (select_rates store sd ed).Pairwise
          (fun a b => rate_key_leb a b = true) ∧
        (select_rates store sd ed).Perm (store.filter (fun r =>
          (match sd with
           | none => true
           | some d => Date.leb d r.date) &&
          (match ed with
           | none => true
           | some d => Date.leb r.date d))) ∧
        (∀ rec, rec ∈ select_rates store sd ed ↔
          rec ∈ store ∧ (∀ d, sd = some d → Date.leb d rec.date = true) ∧
            (∀ d, ed = some d → Date.leb rec.date d = true))) := by
  intro store s1 s2 d1 d2 _ _
  constructor
  · intro rec
    rw [mem_select_rates]
    constructor
    · rintro ⟨h1, h2, h3⟩
      exact ⟨h1, h2 d1 rfl, h3 d2 rfl⟩
    · rintro ⟨h1, h2, h3⟩
      refine ⟨h1, ?_, ?_⟩
      · intro d hd
        injection hd with hd
        exact hd ▸ h2
      · intro d hd
        injection hd with hd
        exact hd ▸ h3
  · intro sd ed
    exact ⟨pairwise_sort_rates _, perm_sort_rates _, fun rec => mem_select_rates⟩

theorem date_range_filter_witness :
    strptime_compact "20240101" = some ⟨2024, 1, 1⟩ ∧
    strptime_compact "20240131" = some ⟨2024, 1, 31⟩ ∧
    (∀ rec, rec ∈ select_rates [usd1, eur1, usd0]
        (some ⟨2024, 1, 1⟩) (some ⟨2024, 1, 31⟩) ↔
      rec ∈ [usd1, eur1, usd0] ∧ Date.leb ⟨2024, 1, 1⟩ rec.date = true ∧
        Date.leb rec.date ⟨2024, 1, 31⟩ = true) :=
  ⟨by decide, by decide,
    (date_range_filter [usd1, eur1, usd0] "20240101" "20240131"
      ⟨2024, 1, 1⟩ ⟨2024, 1, 31⟩ (by decide) (by decide)).1⟩

/-- C8: the format map has pairwise-distinct keys, lookup succeeds
exactly on the known extension/variant pairs (one variant per accepted
value), and a request with an unknown format string fails validation at
the endpoint with an error that does not depend on the store, the client
or any pipeline input: no store query, materialization or encoding
begins. -/
theorem unknown_format_rejected_before_store :
    (available_output_formats.map Prod.fst).Nodup ∧
    (∀ s f, lookup_format s = some f ↔ (s, f) ∈ available_output_formats) ∧
    (∀ s, lookup_format s = none → ∀ sd ed b, ∃ e,
      ∀ (store : List CurrencyRate) (client : Option Unit) (uuid : String)
        (ps sh : String → String),
        currency_rates_endpoint sd ed (some s) b store client uuid ps sh =
          Except.error e) := by
  refine ⟨by decide, ?_, ?_⟩
  · intro s f
    constructor
    · intro h
      unfold lookup_format at h
      rcases hf : List.find? (fun p => decide (p.1 = s))
          available_output_formats with _ | p
      · rw [hf] at h
        exact Option.noConfusion h
      · rw [hf] at h
        have hps := List.find?_some hf
        have hpm := List.mem_of_find?_eq_some hf
        rw [show Option.map Prod.snd (some p) = some p.2 from rfl] at h
        injection h with h2
        simp only [decide_eq_true_iff] at hps
        rw [← h2, ← hps, Prod.mk.eta]
        exact hpm
    · intro h
      simp only [available_output_formats, List.mem_cons,
        Prod.mk.injEq] at h
      rcases h with ⟨hs, hf⟩ | ⟨hs, hf⟩ | ⟨hs, hf⟩ | ⟨hs, hf⟩ | h
      · subst hs; subst hf; rfl
      · subst hs; subst hf; rfl
      · subst hs; subst hf; rfl
      · subst hs; subst hf; rfl
      · cases h
  · intro s hs sd ed b
    cases hd1 : parse_date_field sd with
    | error e1 =>
      refine ⟨e1, ?_⟩
      intro store client uuid ps sh
      unfold currency_rates_endpoint parse_request
      rw [hd1]
    | ok d1 =>
      cases hd2 : parse_date_field ed with
      | error e2 =>
        refine ⟨e2, ?_⟩
        intro store client uuid ps sh
        unfold currency_rates_endpoint parse_request
        rw [hd1, hd2]
      | ok d2 =>
        refine ⟨ValidationError.unknownFormat s, ?_⟩
        intro store client uuid ps sh
        unfold currency_rates_endpoint parse_request
        rw [hd1, hd2]
        dsimp only
        rw [hs]

theorem unknown_format_rejected_before_store_witness :
    lookup_format "xml" = none ∧
    ∃ e, ∀ (store : List CurrencyRate) (client : Option Unit)
      (uuid : String) (ps sh : String → String),
      currency_rates_endpoint none none (some "xml") false store client
        uuid ps sh = Except.error e :=
  ⟨by decide,
    unknown_format_rejected_before_store.2.2 "xml" (by decide) none none false⟩

/-- C9: the storage key is computed once per handler instance (a second
access to the cached property returns the same key), and whenever a run
generates a retrieval link the key inside that link equals the key the
object was uploaded under. -/
theorem upload_and_link_share_key :
    (∀ h : ScalarsHandler,
      (ScalarsHandler.key (ScalarsHandler.key h).1).2 =
        (ScalarsHandler.key h).2) ∧
    (∀ (r : Request) (store : List CurrencyRate) (client : Option Unit)
      (uuid : String) (ps sh : String → String) (o : Outcome),
      get_currency_rates r store client uuid ps sh = Except.ok o →
      o.linked_key ≠ none → o.linked_key = o.uploaded_key) := by
  constructor
  · intro h
    rcases hc : h.key_cache with _ | k
    · simp [ScalarsHandler.key, hc]
    · simp [ScalarsHandler.key, hc]
  · intro r store client uuid ps sh o h hl
    rcases run_cases r store client uuid ps sh with
      ⟨_, hrun⟩ | ⟨_, _, hrun⟩ | ⟨_, _, _, hrun⟩ | ⟨_, _, _, hrun⟩
    · rw [hrun] at h
      obtain rfl := Except.ok.inj h
      exact absurd rfl hl
    · rw [hrun] at h
      exact Except.noConfusion h
    · rw [hrun] at h
      obtain rfl := Except.ok.inj h
      exact absurd rfl hl
    · rw [hrun] at h
      obtain rfl := Except.ok.inj h
      rfl

theorem upload_and_link_share_key_witness :
    (Outcome.mk (ApiResult.jsonBody (Response.mk none none OutputFormat.csv
        (some "u0.csv") none)) true (some "u0.csv")
        (some "u0.csv")).linked_key =
      (Outcome.mk (ApiResult.jsonBody (Response.mk none none OutputFormat.csv
        (some "u0.csv") none)) true (some "u0.csv")
        (some "u0.csv")).uploaded_key :=
  upload_and_link_share_key.2 ⟨none, none, OutputFormat.csv, false⟩ [usd1]
    (some ()) "u0" id id
    ⟨ApiResult.jsonBody ⟨none, none, OutputFormat.csv, some "u0.csv", none⟩,
      true, some "u0.csv", some "u0.csv"⟩ (by rfl) (by decide)

/-- C10: every row of the latest-rates response is the seven-field dict
(digital code, letter code, units, currency name, exchange rate, the date
rendered as an ISO string, source) of some returned record; the record
identifier and the ingestion timestamp never appear in a row. -/
theorem latest_rates_row_fields :
    ∀ (store : List CurrencyRate) (codes : Option (List String))
      (row : List (String × Value)),
      row ∈ latest_rates_endpoint store codes →
      row.map Prod.fst = ["digital_code", "letter_code", "units",
        "currency_name", "exchange_rate", "date", "source"] ∧
      (∀ v, ¬("id", v) ∈ row ∧ ¬("timestamp", v) ∈ row) ∧
      ∃ rec ∈ get_latest_rates store codes, row = rate_row rec ∧
        ("date", Value.vs rec.date.isoformat) ∈ row := by
  intro store codes row hrow
  rcases List.mem_map.mp hrow with ⟨rec, hrec, hr⟩
  subst hr
  refine ⟨rfl, ?_, rec, hrec, rfl, by simp [rate_row]⟩
  intro v
  constructor
  · intro hmem
    simp [rate_row] at hmem
  · intro hmem
    simp [rate_row] at hmem

theorem latest_rates_row_fields_witness :
    (rate_row usd1).map Prod.fst = ["digital_code", "letter_code", "units",
      "currency_name", "exchange_rate", "date", "source"] :=
  (latest_rates_row_fields [usd1] none (rate_row usd1) (by decide)).1

end Cbr
